import Mathlib

/-!
# socket-proxy: request gates, proxy construction and process lifecycle

A shallow embedding of `application/main.go` together with the request
handler it installs.  Go strings are byte sequences; they are represented
here by `String` (a list of code points), every byte sequence embedding
injectively as the list of its byte values, so substring containment is the
same relation on both sides.
-/

namespace SocketProxy

/-! ## Strings -/

/-- Go `strings.HasPrefix(s, prefix)` on the underlying sequences: `sub` is
read off the front of `s`, element by element. -/
def hasPrefixAt : List Char → List Char → Bool
  | [], _ => true
  | _ :: _, [] => false
  | a :: sub, b :: s => a == b && hasPrefixAt sub s

/-- Left-to-right search for `sub` in `s`: try every start offset in turn,
the empty remainder included (so the empty needle is found in the empty
haystack). -/
def containsFrom : List Char → List Char → Bool
  | [], sub => hasPrefixAt sub []
  | c :: s, sub => hasPrefixAt sub (c :: s) || containsFrom s sub

/-- Go `strings.Contains(s, substr)`, that is `strings.Index(s, substr) >= 0`. -/
def stringsContains (s substr : String) : Bool :=
  containsFrom s.data substr.data

/-! ## Configuration -/

/-- `allowedPaths` of `main.go`: the path substrings that are allowed to be
proxied. -/
def allowedPaths : List String := ["version", "events", "containers"]

/-! ## Path gate -/

/-- Modelled from the spec: the path gate of the request handler
(`handleHttpRequest`, installed by `main` but defined outside `main.go`).
"Returns true iff any configured substring fragment occurs anywhere in the
path": the fragments are tried in order with `strings.Contains`, which is
also what the comment on `allowedPaths` describes. -/
def pathAllowed (fragments : List String) (path : String) : Bool :=
  fragments.any (fun fragment => stringsContains path fragment)

/-! ## Network gate -/

/-- Go `net.IP`: a slice of bytes, `IPv4len` or `IPv6len` long. -/
abbrev IP := List Nat

/-- Go `net.IPMask`. -/
abbrev IPMask := List Nat

/-- Go `net.IPNet`: the network number and its mask. -/
structure IPNet where
  IP : IP
  Mask : IPMask
  deriving DecidableEq, Repr

/-- Go `net.IPv4len`. -/
def IPv4len : Nat := 4

/-- Go `net.IPv6len`. -/
def IPv6len : Nat := 16

/-- Go `v4InV6Prefix`: the twelve bytes in front of an IPv4 address held in
16-byte form. -/
def v4InV6Prefix : List Nat := [0, 0, 0, 0, 0, 0, 0, 0, 0, 0, 0xff, 0xff]

/-- Go `net.IPv4(a, b, c, d)`: the 16-byte form of an IPv4 address. -/
def IPv4 (a b c d : Nat) : IP := v4InV6Prefix ++ [a, b, c, d]

/-- Go `isZeros`. -/
def isZeros (p : List Nat) : Bool := p.all (fun b => b == 0)

/-- Go `IP.To4`: the 4-byte form of an IPv4 address, `none` (Go `nil`) when
`ip` is not one. -/
def ipTo4 (ip : IP) : Option IP :=
  if ip.length = IPv4len then some ip
  else if ip.length = IPv6len ∧ isZeros (ip.take 10) = true ∧
      (ip.drop 10).take 2 = [0xff, 0xff] then some (ip.drop 12)
  else none

/-- Go `net.CIDRMask(ones, bits)`, the byte loop: `0xff` while eight or more
ones remain, then `^byte(0xff >> n)`, then zeros.  `len` is `bits / 8`. -/
def cidrMaskBytes : (len : Nat) → (ones : Nat) → IPMask
  | 0, _ => []
  | len + 1, n =>
    if n ≥ 8 then 0xff :: cidrMaskBytes len (n - 8)
    else (0xff - (0xff >>> n)) :: cidrMaskBytes len 0

/-- Go `net.CIDRMask(ones, bits)`; `[]` stands for the `nil` mask. -/
def CIDRMask (ones bits : Nat) : IPMask :=
  if bits ≠ 8 * IPv4len ∧ bits ≠ 8 * IPv6len then []
  else if ones > bits then []
  else cidrMaskBytes (bits / 8) ones

/-- Go `networkNumberAndMask`; `([], [])` stands for `(nil, nil)`. -/
def networkNumberAndMask (n : IPNet) : IP × IPMask :=
  let ip := match ipTo4 n.IP with
    | some x => some x
    | none => if n.IP.length ≠ IPv6len then none else some n.IP
  match ip with
  | none => ([], [])
  | some ip =>
    if n.Mask.length = IPv4len then
      if ip.length ≠ IPv4len then ([], []) else (ip, n.Mask)
    else if n.Mask.length = IPv6len then
      if ip.length = IPv4len then (ip, n.Mask.drop 12) else (ip, n.Mask)
    else ([], [])

/-- The comparison loop of Go `IPNet.Contains`:
`nn[i]&m[i] != ip[i]&m[i]` for some `i` makes the answer false.  The loop
runs over `ip` and `nn`, which have the same length when it is entered. -/
def maskedEqual : (nn : IP) → (m : IPMask) → (ip : IP) → Bool
  | n :: nn, k :: m, x :: ip => (n &&& k) == (x &&& k) && maskedEqual nn m ip
  | _, _, _ => true

/-- Go `(*IPNet).Contains`. -/
def IPNet.Contains (n : IPNet) (ip : SocketProxy.IP) : Bool :=
  let (nn, m) := networkNumberAndMask n
  let ip := match ipTo4 ip with
    | some x => x
    | none => ip
  if ip.length ≠ nn.length then false else maskedEqual nn m ip

/-- The `IPNet` that Go `net.ParseCIDR` builds for the IPv4 network
`addr/ones`: the mask is `CIDRMask(ones, 32)` and the network number is
`addr` with the mask applied. -/
def cidr4 (addr : IP) (ones : Nat) : IPNet :=
  let m := CIDRMask ones (8 * IPv4len)
  { IP := List.zipWith (fun b k => b &&& k) addr m, Mask := m }

/-- The `IPNet` that Go `net.ParseCIDR` builds for the IPv6 network
`addr/ones`: the mask is `CIDRMask(ones, 128)` and the network number is
`addr` with the mask applied. -/
def cidr6 (addr : IP) (ones : Nat) : IPNet :=
  let m := CIDRMask ones (8 * IPv6len)
  { IP := List.zipWith (fun b k => b &&& k) addr m, Mask := m }

/-- The field loop of Go's IPv4 text parser (`parseIPv4Fields`): decimal
octets separated by dots; a leading zero, a value above 255, an empty field,
a fifth field, fewer than four fields or any other character is an error.
`fields` are the octets read so far, `val` and `digLen` the value and digit
count of the current one. -/
def parseIPv4Fields : List Char → List Nat → Nat → Nat → Option (List Nat)
  | [], fields, val, _ => if fields.length < 3 then none else some (fields ++ [val])
  | c :: rest, fields, val, digLen =>
    if '0'.toNat ≤ c.toNat ∧ c.toNat ≤ '9'.toNat then
      if digLen = 1 ∧ val = 0 then none
      else
        let val := val * 10 + (c.toNat - '0'.toNat)
        if val > 255 then none else parseIPv4Fields rest fields val (digLen + 1)
    else if c = '.' then
      if digLen = 0 ∨ rest = [] then none
      else if fields.length = 3 then none
      else parseIPv4Fields rest (fields ++ [val]) 0 0
    else none

/-- Go `netip.parseIPv4` followed by `As16`: a dotted-decimal address in
16-byte form, `none` for any other text.  This is the branch `net.ParseIP`
takes for text whose first separator is a dot. -/
def parseIPv4 (s : String) : Option IP :=
  (parseIPv4Fields s.data [] 0 0).map (fun f => v4InV6Prefix ++ f)

/-- Value of a hexadecimal digit, `none` for any other character. -/
def hexDigit (c : Char) : Option Nat :=
  if '0'.toNat ≤ c.toNat ∧ c.toNat ≤ '9'.toNat then some (c.toNat - '0'.toNat)
  else if 'a'.toNat ≤ c.toNat ∧ c.toNat ≤ 'f'.toNat then some (c.toNat - 'a'.toNat + 10)
  else if 'A'.toNat ≤ c.toNat ∧ c.toNat ≤ 'F'.toNat then some (c.toNat - 'A'.toNat + 10)
  else none

/-- The hex-number loop of Go `netip.parseIPv6`: reads hexadecimal digits
into the 32-bit accumulator `acc`; a fifth digit or a value above `0xffff`
is an error.  The result is the number of digits read, the value and the
text that follows. -/
def parseHexGroup : List Char → Nat → Nat → Option (Nat × Nat × List Char)
  | [], off, acc => some (off, acc, [])
  | c :: s, off, acc =>
    match hexDigit c with
    | none => some (off, acc, c :: s)
    | some v =>
      let acc := (acc * 16 + v) % 2 ^ 32
      if off > 3 then none
      else if acc > 0xffff then none
      else parseHexGroup s (off + 1) acc

/-- The group loop of Go `netip.parseIPv6` (`for i < 16`): `ip` holds the
bytes stored so far (`i` is its length), `ellipsis` the position of `::`.
A group followed by a dot starts the embedded IPv4 address, which takes the
rest of the text.  The result is the unread text, the bytes and the
ellipsis; `none` is an error.  Every pass that continues stores two bytes,
so eight passes suffice: `fuel` counts them. -/
def parseIPv6Groups : Nat → List Char → List Nat → Option Nat →
    Option (List Char × List Nat × Option Nat)
  | 0, s, ip, ellipsis => some (s, ip, ellipsis)
  | fuel + 1, s, ip, ellipsis =>
    if ¬ ip.length < 16 then some (s, ip, ellipsis)
    else
      match parseHexGroup s 0 0 with
      | none => none
      | some (off, acc, rest) =>
        if off = 0 then none
        else if rest.head? = some '.' then
          if ellipsis = none ∧ ip.length ≠ 12 then none
          else if ip.length + 4 > 16 then none
          else
            match parseIPv4Fields s [] 0 0 with
            | none => none
            | some fields => some ([], ip ++ fields, ellipsis)
        else
          let ip := ip ++ [(acc >>> 8) % 256, acc % 256]
          match rest with
          | [] => some ([], ip, ellipsis)
          | c :: s1 =>
            if c ≠ ':' then none
            else if s1 = [] then none
            else if s1.head? = some ':' then
              if ellipsis ≠ none then none
              else if s1.tail = [] then some ([], ip, some ip.length)
              else parseIPv6Groups fuel s1.tail ip (some ip.length)
            else parseIPv6Groups fuel s1 ip ellipsis

/-- The end of Go `netip.parseIPv6`, after the group loop: no text may be
left over; when fewer than 16 bytes were stored the ellipsis is expanded to
the zero bytes that are missing (without an ellipsis the address is too
short), and with 16 bytes stored an ellipsis is an error. -/
def finishIPv6 : List Char × List Nat × Option Nat → Option IP
  | (rest, ip, ellipsis) =>
    if rest ≠ [] then none
    else if ip.length < 16 then
      match ellipsis with
      | none => none
      | some e => some (ip.take e ++ List.replicate (16 - ip.length) 0 ++ ip.drop e)
    else if ellipsis ≠ none then none
    else some ip

/-- Go `netip.parseIPv6` on text without a zone, followed by `As16`: a
leading `::` sets the ellipsis at position 0 and, when nothing follows, is
the unspecified address; then the group loop and its end. -/
def parseIPv6 (s : List Char) : Option IP :=
  if s.take 2 = [':', ':'] then
    if s.drop 2 = [] then some (List.replicate 16 0)
    else
      match parseIPv6Groups 8 (s.drop 2) [] (some 0) with
      | none => none
      | some r => finishIPv6 r
  else
    match parseIPv6Groups 8 s [] none with
    | none => none
    | some r => finishIPv6 r

/-- The scan of Go `netip.ParseAddr`: the first dot, colon or percent sign
of the text decides how the whole text is parsed.  A zone (`%`) makes
`net.ParseIP` answer nil, whether the zone is empty or not. -/
def parseAddrScan : List Char → String → Option IP
  | [], _ => none
  | c :: rest, whole =>
    if c = '.' then parseIPv4 whole
    else if c = ':' then
      if '%' ∈ whole.data then none else parseIPv6 whole.data
    else if c = '%' then none
    else parseAddrScan rest whole

/-- Go `net.ParseIP`: the address in 16-byte form, `none` (Go `nil`) for
text that is no IPv4 or IPv6 address. -/
def ParseIP (s : String) : Option IP :=
  parseAddrScan s.data s

/-- Modelled from the spec: the network gate of the request handler
(`handleHttpRequest`, installed by `main` but defined outside `main.go`).
"Parses the address; if parsing fails, the gate must deny (fail closed),
never permit.  Returns true iff the address falls within `AllowedNetwork`."
`parseIP` is the address parser the handler uses, `allowedNetwork` the
package variable of `main.go`. -/
def networkAllowed (parseIP : String → Option IP) (allowedNetwork : IPNet)
    (remoteAddr : String) : Bool :=
  match parseIP remoteAddr with
  | none => false
  | some ip => allowedNetwork.Contains ip

/-- Value of a byte sequence read as a big-endian number. -/
def beValue : List Nat → Nat
  | [] => 0
  | b :: rest => b * 2 ^ (8 * rest.length) + beValue rest

/-- An address `ip` of `bits / 8` bytes lies in the range `base/ones`: the
two agree on their leading `ones` bits. -/
def inPrefixRange (base : IP) (ones : Nat) (ip : IP) : Prop :=
  beValue ip / 2 ^ (8 * ip.length - ones) = beValue base / 2 ^ (8 * base.length - ones)

/-! ## Request dispatcher -/

/-- The parts of Go `http.Request` the handler reads or forwards. -/
structure Request where
  Method : String
  Path : String
  RemoteAddr : String
  Header : List (String × String)
  Body : List Nat
  deriving DecidableEq, Repr

/-- Go `http.StatusForbidden`. -/
def StatusForbidden : Nat := 403

/-- Go `http.StatusBadGateway`. -/
def StatusBadGateway : Nat := 502

/-- What the handler does with a request: hand it to
`socketProxy.ServeHTTP`, or answer it itself with a status. -/
inductive Dispatch where
  | forward (r : Request)
  | deny (status : Nat)
  deriving DecidableEq, Repr

/-- The requests a dispatch hands to the socket proxy. -/
def Dispatch.toBackend : Dispatch → List Request
  | .forward r => [r]
  | .deny _ => []

/-- Modelled from the spec: the request handler `handleHttpRequest` that
`main` installs as `srv.Handler` (defined outside `main.go`).  "For every
incoming request, evaluate Network Gate AND Path Gate (logical AND, both
required).  On denial, respond with a `403 Forbidden`-equivalent status
[...] and must not forward any part of the request to the backend socket.
On approval, delegate unmodified to the Forwarding Engine."  The short body
of the denial is not represented. -/
def handleHttpRequest (parseIP : String → Option IP) (allowedNetwork : IPNet)
    (fragments : List String) (r : Request) : Dispatch :=
  let networkOk := networkAllowed parseIP allowedNetwork r.RemoteAddr
  let pathOk := pathAllowed fragments r.Path
  if networkOk && pathOk then .forward r else .deny StatusForbidden

/-! ## Errors -/

/-- Go `error` values: the two sentinels the program can meet, any other
leaf error, an error wrapping another (`Unwrap`), and a leaf error whose
`Temporary()` method answers true (such as `EMFILE` or `ECONNABORTED`). -/
inductive GoError where
  | ErrServerClosed
  | DeadlineExceeded
  | leaf (msg : String)
  | wrap (msg : String) (inner : GoError)
  | temporary (msg : String)
  deriving DecidableEq, Repr

/-- Go `ne, ok := err.(net.Error); ok && ne.Temporary()`, the test of the
accept loop of `net/http`: the errors of `Accept` are `*net.OpError`
values, whose `Temporary` asks the error they wrap. -/
def GoError.Temporary : GoError → Bool
  | .temporary _ => true
  | .wrap _ inner => inner.Temporary
  | _ => false

/-- The loop of Go `errors.Is` on a non-nil `err`: compare, then unwrap. -/
def GoError.chainHas : GoError → GoError → Bool
  | .wrap msg inner, target =>
    decide (GoError.wrap msg inner = target) || inner.chainHas target
  | e, target => decide (e = target)

/-- Go `errors.Is(err, target)`; `none` is `nil`. -/
def errorsIs (err target : Option GoError) : Bool :=
  match err, target with
  | some e, some t => e.chainHas t
  | e, t => decide (e = t)

/-! ## The reverse proxy built by `main` -/

/-- The parts of Go `url.URL` used here. -/
structure URL where
  Scheme : String
  Host : String
  deriving DecidableEq, Repr

/-- Go `(*URL).String` for a URL with scheme and host only. -/
def URL.String (u : URL) : String := u.Scheme ++ "://" ++ u.Host

/-- The value of `url.Parse("http://localhost")` in `main`. -/
def socketUrlDummy : URL := { Scheme := "http", Host := "localhost" }

/-- Go `context.Context`, as far as a dial could look at it. -/
structure Context where
  deadline : Option Nat
  deriving DecidableEq, Repr

/-- The answer to a request: status and body. -/
structure Response where
  status : Nat
  body : List Nat
  deriving DecidableEq, Repr

/-- An open connection to a backend: what it answers to a request. -/
structure Conn where
  exchange : Request → Response

/-- The operating system's `net.Dial(network, address)`. -/
abbrev Dialer := String → String → Except GoError Conn

/-- Go `http.Transport`, its `DialContext` field. -/
structure Transport where
  DialContext : Dialer → Context → String → String → Except GoError Conn

/-- Go `httputil.ReverseProxy`: the target of its director, the transport
(`none` is the default transport) and the error handler (`none` is the
default handler). -/
structure ReverseProxy where
  target : URL
  Transport : Option Transport
  ErrorHandler : Option (GoError → Response)

/-- Go `httputil.NewSingleHostReverseProxy(target)`: only the director is
set. -/
def NewSingleHostReverseProxy (target : URL) : ReverseProxy :=
  { target := target, Transport := none, ErrorHandler := none }

/-- The `DialContext` closure of `main`: context, network and address are
ignored, the connection is `net.Dial("unix", socketPath)`. -/
def dialContext (socketPath : String) (netDial : Dialer) (_ctx : Context)
    (_network _addr : String) : Except GoError Conn :=
  netDial "unix" socketPath

/-- The `socketProxy` that `main` builds: the single-host proxy for
`socketUrlDummy` with its transport replaced. -/
def socketProxy (socketPath : String) : ReverseProxy :=
  { NewSingleHostReverseProxy socketUrlDummy with
    Transport := some { DialContext := dialContext socketPath } }

/-- Go `(*ReverseProxy).defaultErrorHandler`: `rw.WriteHeader(http.StatusBadGateway)`. -/
def defaultErrorHandler (_err : GoError) : Response :=
  { status := StatusBadGateway, body := [] }

/-- Go `(*ReverseProxy).getErrorHandler`. -/
def ReverseProxy.getErrorHandler (p : ReverseProxy) : GoError → Response :=
  match p.ErrorHandler with
  | some h => h
  | none => defaultErrorHandler

/-- The transport's round trip on a fresh connection: dial the host of the
outgoing request through `DialContext`, then exchange the request on the
connection.  The default transport dials the address itself. -/
def ReverseProxy.roundTrip (p : ReverseProxy) (netDial : Dialer) (ctx : Context)
    (outreq : Request) : Except GoError Response :=
  let addr := p.target.Host ++ ":80"
  let conn := match p.Transport with
    | some t => t.DialContext netDial ctx "tcp" addr
    | none => netDial "tcp" addr
  match conn with
  | .error err => .error err
  | .ok c => .ok (c.exchange outreq)

/-- Go `(*ReverseProxy).ServeHTTP`, its outcome: the backend's response, or
on a round-trip error what the error handler writes. -/
def ReverseProxy.ServeHTTP (p : ReverseProxy) (netDial : Dialer) (ctx : Context)
    (req : Request) : Response :=
  match p.roundTrip netDial ctx req with
  | .error err => p.getErrorHandler err
  | .ok res => res

/-! ## Process lifecycle -/

/-- Signals a process can be sent.  The default action of each of them ends
a Go process that has not registered for it. -/
inductive Signal where
  | SIGINT
  | SIGTERM
  | SIGHUP
  | SIGKILL
  deriving DecidableEq, Repr

/-- Number of a signal. -/
def Signal.number : Signal → Nat
  | .SIGHUP => 1
  | .SIGINT => 2
  | .SIGKILL => 9
  | .SIGTERM => 15

/-- The ways the process of `main` ends.  By its own code: `main` returns
(line 71), `os.Exit(2)` in the server goroutine (line 53), `os.Exit(3)`
after `srv.Shutdown` (line 68).  From outside: it is ended by a signal it
has not registered for. -/
inductive ExitPoint where
  | mainReturned
  | listenerFailed
  | shutdownTimedOut
  | killed (s : Signal)
  deriving DecidableEq, Repr

/-- Exit status of the process at each exit point; for a process ended by a
signal, the status shells and container runtimes report, 128 plus the
number of the signal. -/
def ExitPoint.code : ExitPoint → Nat
  | .mainReturned => 0
  | .listenerFailed => 2
  | .shutdownTimedOut => 3
  | .killed s => 128 + s.number

/-- The server goroutine of `main`, given the result of
`srv.ListenAndServe()`: `os.Exit(2)` or the goroutine just ends. -/
def serverGoroutine (err : Option GoError) : Option ExitPoint :=
  if err ≠ none ∧ errorsIs err (some .ErrServerClosed) = false then
    some .listenerFailed
  else none

/-- The end of `main`, given the result of `srv.Shutdown(ctx)`: `os.Exit(3)`
or `main` returns. -/
def afterShutdown (err : Option GoError) : ExitPoint :=
  if err ≠ none then .shutdownTimedOut else .mainReturned

/-- Go `time.Second`, in nanoseconds. -/
def timeSecond : Nat := 1000000000

/-- The signals `main` registers with `signal.Notify(quit, ...)`. -/
def notifiedSignals : List Signal := [.SIGINT, .SIGTERM]

/-- Where the server goroutine is: inside `ListenAndServe` before the
listener is bound, inside its accept loop, or past the call. -/
inductive ServerThread where
  | binding
  | serving
  | finished
  deriving DecidableEq, Repr

/-- Where `main` is: blocked on `<-quit`, or inside `srv.Shutdown(ctx)`. -/
inductive MainThread where
  | waitingSignal
  | inShutdown
  deriving DecidableEq, Repr

/-- State of the process of `main` after the goroutine has been started. -/
structure Proc where
  server : ServerThread
  main : MainThread
  accepted : Nat
  shutdownTimeout : Option Nat
  exit : Option ExitPoint
  deriving DecidableEq, Repr

/-- The accept loop of `net/http` (`Server.Serve`) does not return a
temporary error of `Accept`: it waits and calls `Accept` again. -/
def acceptRetried (err : Option GoError) : Bool :=
  match err with
  | some e => e.Temporary
  | none => false

/-- What happens to the process: the results of the calls it is blocked in,
and the signals it is sent. -/
inductive Event where
  | listenerBound
  | requestAccepted
  | listenAndServeReturned (err : Option GoError)
  | signal (s : Signal)
  | shutdownReturned (err : Option GoError)
  deriving DecidableEq, Repr

/-- The process when the goroutine has just been started. -/
def Proc.init : Proc :=
  { server := .binding, main := .waitingSignal, accepted := 0,
    shutdownTimeout := none, exit := none }

/-- One step of the process of `main`; `none` when the event cannot happen
in the state.  `ListenAndServe` returns the error of `net.Listen` while the
listener is not bound and an error of `Accept` that is not retried after
that.  A registered signal is delivered on `quit`: it wakes `main`, or
stays unread once `main` is past `<-quit`; any other signal ends the
process.  `maxGracefulShutdownTime` is the constant of the configuration
file, in seconds. -/
def step (maxGracefulShutdownTime : Nat) (p : Proc) : Event → Option Proc
  | .listenerBound =>
    if p.exit = none ∧ p.server = .binding then some { p with server := .serving } else none
  | .requestAccepted =>
    if p.exit = none ∧ p.server = .serving then some { p with accepted := p.accepted + 1 }
    else none
  | .listenAndServeReturned err =>
    if p.exit = none ∧ p.server ≠ .finished ∧
        ¬ (p.server = .serving ∧ acceptRetried err = true) then
      some { p with server := .finished, exit := serverGoroutine err }
    else none
  | .signal s =>
    if p.exit = none ∧ s ∈ notifiedSignals then
      match p.main with
      | .waitingSignal =>
        some { p with main := .inShutdown,
                      shutdownTimeout := some (maxGracefulShutdownTime * timeSecond) }
      | .inShutdown => some p
    else if p.exit = none then some { p with exit := some (.killed s) }
    else none
  | .shutdownReturned err =>
    if p.exit = none ∧ p.main = .inShutdown then
      some { p with exit := some (afterShutdown err) }
    else none

/-- The lifecycle phases of the specification. -/
inductive Phase where
  | Starting
  | Running
  | ShuttingDown
  | Stopped
  deriving DecidableEq, Repr

/-- The phase a process state is in: stopped once it has exited, shutting
down while `main` is inside `srv.Shutdown`, starting until the listener is
bound, running otherwise. -/
def Proc.phase (p : Proc) : Phase :=
  match p.exit, p.main, p.server with
  | some _, _, _ => .Stopped
  | none, .inShutdown, _ => .ShuttingDown
  | none, .waitingSignal, .binding => .Starting
  | none, .waitingSignal, _ => .Running

/-- Run a list of events from a state. -/
def run (maxGracefulShutdownTime : Nat) : Proc → List Event → Option Proc
  | p, [] => some p
  | p, e :: es =>
    match step maxGracefulShutdownTime p e with
    | none => none
    | some q => run maxGracefulShutdownTime q es

/-! # Theorems

## Lemmas on the string search -/

theorem hasPrefixAt_iff (sub s : List Char) :
    hasPrefixAt sub s = true ↔ sub <+: s := by
  induction sub generalizing s with
  | nil => simp [hasPrefixAt]
  | cons a sub ih =>
    cases s with
    | nil => simp [hasPrefixAt]
    | cons b s =>
      simp only [hasPrefixAt, Bool.and_eq_true, beq_iff_eq, ih, List.cons_prefix_cons]

theorem containsFrom_iff (s sub : List Char) :
    containsFrom s sub = true ↔ sub <:+: s := by
  induction s with
  | nil =>
    simp only [containsFrom, hasPrefixAt_iff, List.prefix_nil, List.infix_nil]
  | cons c s ih =>
    simp only [containsFrom, Bool.or_eq_true, hasPrefixAt_iff, ih, List.infix_cons_iff]

theorem infix_iff_exists_append (sub s : List Char) :
    sub <:+: s ↔ ∃ pre post : List Char, s = pre ++ sub ++ post := by
  constructor
  · rintro ⟨pre, post, h⟩
    exact ⟨pre, post, h.symm⟩
  · rintro ⟨pre, post, h⟩
    exact ⟨pre, post, h.symm⟩

theorem stringsContains_iff (s substr : String) :
    stringsContains s substr = true ↔ ∃ pre post : String, s = pre ++ substr ++ post := by
  unfold stringsContains
  rw [containsFrom_iff, infix_iff_exists_append]
  constructor
  · rintro ⟨pre, post, h⟩
    refine ⟨⟨pre⟩, ⟨post⟩, ?_⟩
    apply String.ext
    simpa using h
  · rintro ⟨pre, post, h⟩
    refine ⟨pre.data, post.data, ?_⟩
    have := congrArg String.data h
    simpa using this

theorem pathAllowed_iff (fragments : List String) (path : String) :
    pathAllowed fragments path = true ↔
      ∃ fragment ∈ fragments, ∃ pre post : String, path = pre ++ fragment ++ post := by
  unfold pathAllowed
  rw [List.any_eq_true]
  constructor
  · rintro ⟨f, hf, h⟩
    exact ⟨f, hf, (stringsContains_iff path f).mp h⟩
  · rintro ⟨f, hf, h⟩
    exact ⟨f, hf, (stringsContains_iff path f).mpr h⟩

theorem pathAllowed_of_occurs (fragments : List String) (pre fragment post : String)
    (h : fragment ∈ fragments) : pathAllowed fragments (pre ++ fragment ++ post) = true :=
  (pathAllowed_iff fragments _).mpr ⟨fragment, h, pre, post, rfl⟩

theorem pathAllowed_of_contains (fragments : List String) (p q : String)
    (hp : pathAllowed fragments p = true) (hq : ∃ pre post : String, q = pre ++ p ++ post) :
    pathAllowed fragments q = true := by
  obtain ⟨f, hf, a, b, rfl⟩ := (pathAllowed_iff fragments p).mp hp
  obtain ⟨pre, post, rfl⟩ := hq
  refine (pathAllowed_iff fragments _).mpr ⟨f, hf, pre ++ a, b ++ post, ?_⟩
  simp only [String.append_assoc]

/-- C2: the path gate permits a path exactly when one of the fragments
occurs in it as a substring, compared character by character (so case
matters).  This holds for the configured list `allowedPaths`, which is
`["version", "events", "containers"]`, and for an arbitrary fragment list;
the empty list denies every path.  `/v1.41/info` is denied,
`/v1.41/containers/json` is allowed, and a fragment in another case does not
match. -/
theorem path_gate_iff_some_fragment_occurs :
    allowedPaths = ["version", "events", "containers"] ∧
    (∀ path : String, pathAllowed allowedPaths path = true ↔
      ∃ fragment ∈ allowedPaths, ∃ pre post : String, path = pre ++ fragment ++ post) ∧
    (∀ (fragments : List String) (path : String), pathAllowed fragments path = true ↔
      ∃ fragment ∈ fragments, ∃ pre post : String, path = pre ++ fragment ++ post) ∧
    (∀ path : String, pathAllowed [] path = false) ∧
    pathAllowed allowedPaths "/v1.41/info" = false ∧
    pathAllowed allowedPaths "/v1.41/containers/json" = true ∧
    pathAllowed allowedPaths "/v1.41/Containers/json" = false := by
  refine ⟨rfl, fun path => pathAllowed_iff _ path, pathAllowed_iff, fun _ => rfl, ?_, ?_, ?_⟩ <;> decide

/-- C10: the path gate is closed under extension of the path.  A path
`p ++ f ++ s` with `f` in `allowedPaths` is permitted; a path that contains
a permitted path as a substring is permitted; so a path is permitted as soon
as `version`, `events` or `containers` occurs anywhere in it.  No fragment of
`allowedPaths` is empty, and the path `/` is denied. -/
theorem path_gate_closed_under_extension :
    (∀ p s f : String, f ∈ allowedPaths → pathAllowed allowedPaths (p ++ f ++ s) = true) ∧
    (∀ p q : String, pathAllowed allowedPaths p = true →
      (∃ pre post : String, q = pre ++ p ++ post) → pathAllowed allowedPaths q = true) ∧
    (∀ q : String, (∃ pre post : String, q = pre ++ "version" ++ post ∨
        q = pre ++ "events" ++ post ∨ q = pre ++ "containers" ++ post) →
      pathAllowed allowedPaths q = true) ∧
    (∀ f ∈ allowedPaths, f ≠ "") ∧
    pathAllowed allowedPaths "/" = false := by
  refine ⟨fun p s f h => pathAllowed_of_occurs _ p f s h,
    fun p q => pathAllowed_of_contains _ p q, ?_, ?_, ?_⟩
  · rintro q ⟨pre, post, rfl | rfl | rfl⟩
    · exact pathAllowed_of_occurs _ _ _ _ (by decide)
    · exact pathAllowed_of_occurs _ _ _ _ (by decide)
    · exact pathAllowed_of_occurs _ _ _ _ (by decide)
  · decide
  · decide

set_option maxRecDepth 100000 in
theorem land_top_bits : ∀ n < 8, ∀ x < 256,
    x &&& (0xff - (0xff >>> n)) = x / 2 ^ (8 - n) * 2 ^ (8 - n) := by
  decide

theorem land_ff (x : Nat) (hx : x < 256) : x &&& 0xff = x := by
  have h : (0xff : Nat) = 2 ^ 8 - 1 := by norm_num
  rw [h, Nat.and_pow_two_sub_one_eq_mod]
  exact Nat.mod_eq_of_lt (by simpa using hx)

theorem cidrMaskBytes_length (len ones : Nat) : (cidrMaskBytes len ones).length = len := by
  induction len generalizing ones with
  | zero => rfl
  | succ len ih =>
    unfold cidrMaskBytes
    split <;> simp [ih]

theorem beValue_lt (l : List Nat) (h : ∀ b ∈ l, b < 256) : beValue l < 2 ^ (8 * l.length) := by
  induction l with
  | nil => simp [beValue]
  | cons b rest ih =>
    have hb : b < 256 := h b (List.mem_cons_self _ _)
    have hr := ih (fun x hx => h x (List.mem_cons_of_mem _ hx))
    simp only [beValue, List.length_cons]
    have e : 2 ^ (8 * (rest.length + 1)) = 256 * 2 ^ (8 * rest.length) := by
      rw [Nat.mul_succ, pow_add]; ring
    rw [e]
    nlinarith

theorem maskedEqual_zero_mask (len : Nat) (nn ip : IP) :
    maskedEqual nn (cidrMaskBytes len 0) ip = true := by
  induction len generalizing nn ip with
  | zero => cases nn <;> cases ip <;> simp [cidrMaskBytes, maskedEqual]
  | succ len ih =>
    cases nn with
    | nil => simp [maskedEqual]
    | cons n nn =>
      cases ip with
      | nil => simp [maskedEqual]
      | cons x ip =>
        simp [cidrMaskBytes, maskedEqual, ih]

theorem div_pow_split (x r L d : Nat) (hd : d ≤ L) (hr : r < 2 ^ L) :
    (x * 2 ^ L + r) / 2 ^ d = x * 2 ^ (L - d) + r / 2 ^ d ∧ r / 2 ^ d < 2 ^ (L - d) := by
  have e : 2 ^ L = 2 ^ (L - d) * 2 ^ d := by rw [← pow_add, Nat.sub_add_cancel hd]
  have hpos : 0 < 2 ^ d := (by positivity)
  constructor
  · rw [e, ← Nat.mul_assoc, Nat.add_comm, Nat.add_mul_div_right _ _ hpos, Nat.add_comm]
  · rw [Nat.div_lt_iff_lt_mul hpos, ← e]; exact hr

theorem maskedEqual_cidr_iff (len : Nat) (nn ip : IP) (ones : Nat)
    (hn : nn.length = len) (hi : ip.length = len)
    (hnb : ∀ b ∈ nn, b < 256) (hib : ∀ b ∈ ip, b < 256) (ho : ones ≤ 8 * len) :
    maskedEqual nn (cidrMaskBytes len ones) ip = true ↔
      beValue ip / 2 ^ (8 * len - ones) = beValue nn / 2 ^ (8 * len - ones) := by
  induction len generalizing nn ip ones with
  | zero =>
    cases nn <;> cases ip <;> simp_all [maskedEqual, beValue]
  | succ len ih =>
    cases nn with
    | nil => simp at hn
    | cons n nn =>
      cases ip with
      | nil => simp at hi
      | cons x ip =>
        have hn' : nn.length = len := by simpa using hn
        have hi' : ip.length = len := by simpa using hi
        have hnlt : n < 256 := hnb n (List.mem_cons_self _ _)
        have hxlt : x < 256 := hib x (List.mem_cons_self _ _)
        have hnb' : ∀ b ∈ nn, b < 256 := fun b hb => hnb b (List.mem_cons_of_mem _ hb)
        have hib' : ∀ b ∈ ip, b < 256 := fun b hb => hib b (List.mem_cons_of_mem _ hb)
        have hrn := beValue_lt nn hnb'
        have hri := beValue_lt ip hib'
        rw [hn'] at hrn
        rw [hi'] at hri
        unfold cidrMaskBytes
        by_cases h8 : ones ≥ 8
        · rw [if_pos h8]
          simp only [maskedEqual, Bool.and_eq_true, beq_iff_eq, land_ff n hnlt, land_ff x hxlt,
            beValue, hn', hi']
          rw [ih nn ip (ones - 8) hn' hi' hnb' hib' (by omega)]
          have hd : 8 * (len + 1) - ones = 8 * len - (ones - 8) := by omega
          rw [hd]
          have hle : 8 * len - (ones - 8) ≤ 8 * len := Nat.sub_le _ _
          obtain ⟨e1, l1⟩ := div_pow_split x (beValue ip) (8 * len) _ hle hri
          obtain ⟨e2, l2⟩ := div_pow_split n (beValue nn) (8 * len) _ hle hrn
          rw [e1, e2]
          constructor
          · rintro ⟨rfl, h⟩
            rw [h]
          · intro h
            set K := 2 ^ (8 * len - (8 * len - (ones - 8))) with hK
            have hx : x = n := by
              have h1 := congrArg (fun t => t / K) h
              simp only at h1
              have hKpos : 0 < K := (by positivity)
              rw [Nat.add_comm, Nat.add_mul_div_right _ _ hKpos, Nat.div_eq_of_lt l1,
                Nat.add_comm (n * K), Nat.add_mul_div_right _ _ hKpos, Nat.div_eq_of_lt l2] at h1
              simpa using h1
            subst hx
            exact ⟨rfl, by omega⟩
        · rw [if_neg h8]
          have hlt : ones < 8 := by omega
          simp only [maskedEqual, Bool.and_eq_true, beq_iff_eq, maskedEqual_zero_mask,
            and_true, beValue, hn', hi']
          rw [land_top_bits ones hlt n hnlt, land_top_bits ones hlt x hxlt]
          have hd : 8 * (len + 1) - ones = 8 * len + (8 - ones) := by omega
          rw [hd, pow_add, ← Nat.div_div_eq_div_mul, ← Nat.div_div_eq_div_mul]
          have hM : 0 < 2 ^ (8 * len) := (by positivity)
          rw [Nat.add_comm, Nat.add_mul_div_right _ _ hM, Nat.div_eq_of_lt hri,
            Nat.add_comm (n * _), Nat.add_mul_div_right _ _ hM, Nat.div_eq_of_lt hrn]
          simp only [Nat.zero_add]
          have hP : 0 < 2 ^ (8 - ones) := (by positivity)
          constructor
          · intro h
            have := congrArg (fun t => t / 2 ^ (8 - ones)) h
            simp only [Nat.mul_div_cancel _ hP] at this
            exact this.symm
          · intro h
            rw [h]

theorem maskedEqual_masked_base (base : IP) (m : IPMask) (ip : IP) :
    maskedEqual (List.zipWith (fun b k => b &&& k) base m) m ip = maskedEqual base m ip := by
  induction base generalizing m ip with
  | nil => cases m <;> cases ip <;> simp [maskedEqual]
  | cons n base ih =>
    cases m with
    | nil => cases ip <;> simp [maskedEqual]
    | cons k m =>
      cases ip with
      | nil => simp [maskedEqual]
      | cons x ip =>
        simp only [List.zipWith_cons_cons, maskedEqual, ih, Nat.land_assoc, Nat.and_self]

theorem ipTo4_of_length_four (ip : IP) (h : ip.length = 4) : ipTo4 ip = some ip := by
  simp [ipTo4, IPv4len, h]

theorem ipTo4_IPv4 (a b c d : Nat) : ipTo4 (IPv4 a b c d) = some [a, b, c, d] := by
  simp [ipTo4, IPv4, v4InV6Prefix, isZeros, IPv4len, IPv6len]

theorem cidr4_contains_iff (base ip : IP) (ones : Nat)
    (hb : base.length = 4) (hi : ip.length = 4)
    (hbb : ∀ b ∈ base, b < 256) (hib : ∀ b ∈ ip, b < 256) (ho : ones ≤ 32) :
    (cidr4 base ones).Contains ip = true ↔ inPrefixRange base ones ip := by
  have hm : CIDRMask ones (8 * IPv4len) = cidrMaskBytes 4 ones := by
    have : ¬ ones > 32 := by omega
    simp [CIDRMask, IPv4len, IPv6len, this]
  have hml : (cidrMaskBytes 4 ones).length = 4 := cidrMaskBytes_length 4 ones
  have hzl : (List.zipWith (fun b k => b &&& k) base (cidrMaskBytes 4 ones)).length = 4 := by
    simp [hb, hml]
  have hc : cidr4 base ones =
      { IP := List.zipWith (fun b k => b &&& k) base (cidrMaskBytes 4 ones),
        Mask := cidrMaskBytes 4 ones } := by
    simp only [cidr4, hm]
  have hnm : networkNumberAndMask (cidr4 base ones) =
      (List.zipWith (fun b k => b &&& k) base (cidrMaskBytes 4 ones), cidrMaskBytes 4 ones) := by
    rw [hc]
    simp only [networkNumberAndMask, ipTo4_of_length_four _ hzl, hml, hzl, IPv4len, if_true,
      ne_eq, not_true_eq_false, if_false]
  unfold IPNet.Contains
  rw [hnm]
  simp only [ipTo4_of_length_four ip hi, hi, hzl, ne_eq, not_true_eq_false, if_false,
    maskedEqual_masked_base]
  rw [maskedEqual_cidr_iff 4 base ip ones hb hi hbb hib (by omega)]
  simp [inPrefixRange, hb, hi]

theorem parseIPv4Fields_bytes (s : List Char) (fields : List Nat) (val digLen : Nat)
    (hf : ∀ x ∈ fields, x < 256) (hl : fields.length ≤ 3) (hv : val < 256) (out : List Nat)
    (h : parseIPv4Fields s fields val digLen = some out) :
    out.length = 4 ∧ ∀ x ∈ out, x < 256 := by
  induction s generalizing fields val digLen with
  | nil =>
    simp only [parseIPv4Fields] at h
    split at h
    · simp at h
    · simp only [Option.some.injEq] at h
      subst h
      constructor
      · simp; omega
      · intro x hx
        rcases List.mem_append.mp hx with hx | hx
        · exact hf x hx
        · simp at hx; omega
  | cons c rest ih =>
    simp only [parseIPv4Fields] at h
    split at h
    · split at h
      · simp at h
      · split at h
        · simp at h
        · exact ih fields _ _ hf hl (by omega) h
    · split at h
      · split at h
        · simp at h
        · split at h
          · simp at h
          · refine ih (fields ++ [val]) 0 0 ?_ ?_ (by norm_num) h
            · intro x hx
              rcases List.mem_append.mp hx with hx | hx
              · exact hf x hx
              · simp at hx; omega
            · simp; omega
      · simp at h

theorem parseIPv4_form (s : String) (ip : IP) (h : parseIPv4 s = some ip) :
    ∃ a b c d : Nat, a < 256 ∧ b < 256 ∧ c < 256 ∧ d < 256 ∧ ip = IPv4 a b c d := by
  unfold parseIPv4 at h
  rw [Option.map_eq_some'] at h
  obtain ⟨f, hf, rfl⟩ := h
  obtain ⟨hl, hb⟩ := parseIPv4Fields_bytes s.data [] 0 0 (by simp) (by simp) (by norm_num) f hf
  match f, hl, hb with
  | [a, b, c, d], _, hb =>
    exact ⟨a, b, c, d, hb a (by simp), hb b (by simp), hb c (by simp), hb d (by simp), rfl⟩

theorem networkAllowed_iff (parseIP : String → Option IP) (allowedNetwork : IPNet)
    (a : String) :
    networkAllowed parseIP allowedNetwork a = true ↔
      ∃ ip, parseIP a = some ip ∧ allowedNetwork.Contains ip = true := by
  unfold networkAllowed
  cases h : parseIP a with
  | none => simp
  | some ip => simp

theorem parseIPv6Groups_bytes (fuel : Nat) (s : List Char) (ip : List Nat) (ellipsis : Option Nat)
    (hip : ∀ x ∈ ip, x < 256) (rest : List Char) (out : List Nat) (e : Option Nat)
    (h : parseIPv6Groups fuel s ip ellipsis = some (rest, out, e)) :
    ∀ x ∈ out, x < 256 := by
  induction fuel generalizing s ip ellipsis with
  | zero =>
    simp only [parseIPv6Groups, Option.some.injEq, Prod.mk.injEq] at h
    obtain ⟨_, rfl, _⟩ := h
    exact hip
  | succ fuel ih =>
    have hip2 : ∀ (a b : Nat), ∀ x ∈ ip ++ [a % 256, b % 256], x < 256 := by
      intro a b x hx
      rcases List.mem_append.mp hx with hx | hx
      · exact hip x hx
      · simp only [List.mem_cons, List.mem_singleton, List.not_mem_nil, or_false] at hx
        rcases hx with rfl | rfl
        · exact Nat.mod_lt _ (by norm_num)
        · exact Nat.mod_lt _ (by norm_num)
    simp only [parseIPv6Groups] at h
    split at h
    · simp only [Option.some.injEq, Prod.mk.injEq] at h
      obtain ⟨_, rfl, _⟩ := h
      exact hip
    · split at h
      · cases h
      · rename_i off acc rst hg
        split at h
        · cases h
        · split at h
          · split at h
            · cases h
            · split at h
              · cases h
              · split at h
                · cases h
                · rename_i fields hf
                  simp only [Option.some.injEq, Prod.mk.injEq] at h
                  obtain ⟨_, rfl, _⟩ := h
                  obtain ⟨_, hb⟩ := parseIPv4Fields_bytes s [] 0 0 (by simp) (by simp)
                    (by norm_num) fields hf
                  intro x hx
                  rcases List.mem_append.mp hx with hx | hx
                  · exact hip x hx
                  · exact hb x hx
          · split at h
            · simp only [Option.some.injEq, Prod.mk.injEq] at h
              obtain ⟨_, rfl, _⟩ := h
              exact hip2 _ _
            · split at h
              · cases h
              · split at h
                · cases h
                · split at h
                  · split at h
                    · cases h
                    · split at h
                      · simp only [Option.some.injEq, Prod.mk.injEq] at h
                        obtain ⟨_, rfl, _⟩ := h
                        exact hip2 _ _
                      · exact ih _ _ _ (hip2 _ _) h
                  · exact ih _ _ _ (hip2 _ _) h

theorem finishIPv6_bytes (rest : List Char) (out : List Nat) (e : Option Nat) (ip : IP)
    (hb : ∀ x ∈ out, x < 256) (h : finishIPv6 (rest, out, e) = some ip) :
    ∀ x ∈ ip, x < 256 := by
  simp only [finishIPv6] at h
  split at h
  · cases h
  · split at h
    · split at h
      · cases h
      · simp only [Option.some.injEq] at h
        subst h
        intro x hx
        rcases List.mem_append.mp hx with hx | hx
        · rcases List.mem_append.mp hx with hx | hx
          · exact hb x (List.mem_of_mem_take hx)
          · rw [List.eq_of_mem_replicate hx]
            norm_num
        · exact hb x (List.mem_of_mem_drop hx)
    · split at h
      · cases h
      · simp only [Option.some.injEq] at h
        subst h
        exact hb

theorem parseIPv6_bytes (s : List Char) (ip : IP) (h : parseIPv6 s = some ip) :
    ∀ x ∈ ip, x < 256 := by
  unfold parseIPv6 at h
  split at h
  · split at h
    · simp only [Option.some.injEq] at h
      subst h
      intro x hx
      rw [List.eq_of_mem_replicate hx]
      norm_num
    · split at h
      · cases h
      · rename_i r hg
        obtain ⟨rest, out, e⟩ := r
        exact finishIPv6_bytes rest out e ip
          (parseIPv6Groups_bytes 8 _ [] _ (by simp) rest out e hg) h
  · split at h
    · cases h
    · rename_i r hg
      obtain ⟨rest, out, e⟩ := r
      exact finishIPv6_bytes rest out e ip
        (parseIPv6Groups_bytes 8 _ [] _ (by simp) rest out e hg) h

theorem parseIPv4_bytes (s : String) (ip : IP) (h : parseIPv4 s = some ip) :
    ∀ x ∈ ip, x < 256 := by
  obtain ⟨a, b, c, d, ha, hb, hc, hd, rfl⟩ := parseIPv4_form s ip h
  intro x hx
  simp only [IPv4, v4InV6Prefix, List.cons_append, List.nil_append, List.mem_cons,
    List.mem_singleton, List.not_mem_nil, or_false] at hx
  omega

theorem parseAddrScan_bytes (scan : List Char) (whole : String) (ip : IP)
    (h : parseAddrScan scan whole = some ip) : ∀ x ∈ ip, x < 256 := by
  induction scan with
  | nil => simp [parseAddrScan] at h
  | cons c rest ih =>
    simp only [parseAddrScan] at h
    split at h
    · exact parseIPv4_bytes whole ip h
    · split at h
      · split at h
        · cases h
        · exact parseIPv6_bytes _ ip h
      · split at h
        · cases h
        · exact ih h

theorem ParseIP_bytes (s : String) (ip : IP) (h : ParseIP s = some ip) :
    ∀ x ∈ ip, x < 256 :=
  parseAddrScan_bytes s.data s ip h

theorem parseIPv6Groups_fuel_succ (fuel : Nat) (s : List Char) (ip : List Nat)
    (ellipsis : Option Nat) (h : 16 ≤ ip.length + 2 * fuel) :
    parseIPv6Groups (fuel + 1) s ip ellipsis = parseIPv6Groups fuel s ip ellipsis := by
  induction fuel generalizing s ip ellipsis with
  | zero =>
    have h16 : ¬ ip.length < 16 := by omega
    simp [parseIPv6Groups, h16]
  | succ fuel ih =>
    have key : ∀ (s1 : List Char) (a b : Nat) (e1 : Option Nat),
        parseIPv6Groups (fuel + 1) s1 (ip ++ [a, b]) e1 =
          parseIPv6Groups fuel s1 (ip ++ [a, b]) e1 := by
      intro s1 a b e1
      apply ih
      simp only [List.length_append, List.length_cons, List.length_nil]
      omega
    rw [parseIPv6Groups, parseIPv6Groups]
    simp only [key]

theorem parseIPv6Groups_fuel (extra : Nat) (s : List Char) (ellipsis : Option Nat) :
    parseIPv6Groups (8 + extra) s [] ellipsis = parseIPv6Groups 8 s [] ellipsis := by
  induction extra with
  | zero => rfl
  | succ extra ih =>
    rw [← ih, ← Nat.add_assoc]
    exact parseIPv6Groups_fuel_succ (8 + extra) s [] ellipsis (by simp; omega)

theorem ipTo4_some (ip v : IP) (h : ipTo4 ip = some v) :
    v.length = 4 ∧ (∀ x ∈ v, x ∈ ip) ∧ ipTo4 v = some v := by
  unfold ipTo4 at h
  split at h
  next h4 =>
    simp only [Option.some.injEq] at h
    subst h
    exact ⟨h4, fun x hx => hx, ipTo4_of_length_four _ h4⟩
  · split at h
    next h16 =>
      simp only [Option.some.injEq] at h
      subst h
      have hl : (List.drop 12 ip).length = 4 := by
        simp only [List.length_drop, h16.1, IPv6len]
      exact ⟨hl, fun x hx => List.mem_of_mem_drop hx, ipTo4_of_length_four _ hl⟩
    · cases h

theorem ipTo4_none_length (ip : IP) (h : ipTo4 ip = none) : ip.length ≠ 4 := by
  intro h4
  rw [ipTo4_of_length_four ip h4] at h
  cases h

theorem contains_of_ipTo4 (n : IPNet) (ip v : IP) (h : ipTo4 ip = some v) :
    n.Contains ip = n.Contains v := by
  unfold IPNet.Contains
  rw [h, (ipTo4_some ip v h).2.2]

theorem cidr4_contains_any (base ip : IP) (ones : Nat)
    (hb : base.length = 4) (hbb : ∀ b ∈ base, b < 256) (ho : ones ≤ 32)
    (hib : ∀ b ∈ ip, b < 256) :
    (cidr4 base ones).Contains ip = true ↔
      ∃ v4, ipTo4 ip = some v4 ∧ inPrefixRange base ones v4 := by
  cases h : ipTo4 ip with
  | none =>
    simp only [false_and, exists_false, iff_false, Bool.not_eq_true, reduceCtorEq]
    have hlen := ipTo4_none_length ip h
    have hm : CIDRMask ones (8 * IPv4len) = cidrMaskBytes 4 ones := by
      have : ¬ ones > 32 := by omega
      simp [CIDRMask, IPv4len, IPv6len, this]
    have hml : (cidrMaskBytes 4 ones).length = 4 := cidrMaskBytes_length 4 ones
    have hzl : (List.zipWith (fun b k => b &&& k) base (cidrMaskBytes 4 ones)).length = 4 := by
      simp [hb, hml]
    have hc : cidr4 base ones =
        { IP := List.zipWith (fun b k => b &&& k) base (cidrMaskBytes 4 ones),
          Mask := cidrMaskBytes 4 ones } := by
      simp only [cidr4, hm]
    have hnm : networkNumberAndMask (cidr4 base ones) =
        (List.zipWith (fun b k => b &&& k) base (cidrMaskBytes 4 ones),
          cidrMaskBytes 4 ones) := by
      rw [hc]
      simp only [networkNumberAndMask, ipTo4_of_length_four _ hzl, hml, hzl, IPv4len, if_true,
        ne_eq, not_true_eq_false, if_false]
    unfold IPNet.Contains
    rw [hnm]
    simp only [h, hzl, ne_eq, hlen, not_false_eq_true, if_true]
  | some v4 =>
    obtain ⟨hl, hmem, _⟩ := ipTo4_some ip v4 h
    rw [contains_of_ipTo4 _ ip v4 h,
      cidr4_contains_iff base v4 ones hb hl hbb (fun x hx => hib x (hmem x hx)) ho]
    constructor
    · intro hr
      exact ⟨v4, rfl, hr⟩
    · rintro ⟨w, hw, hr⟩
      cases hw
      exact hr

theorem cidr6_contains_any (base ip : IP) (ones : Nat)
    (hb : base.length = 16) (hbb : ∀ b ∈ base, b < 256) (ho : ones ≤ 128)
    (hn : ipTo4 (cidr6 base ones).IP = none) (hib : ∀ b ∈ ip, b < 256) :
    (cidr6 base ones).Contains ip = true ↔
      (ipTo4 ip = none ∧ ip.length = 16 ∧ inPrefixRange base ones ip) := by
  have hm : CIDRMask ones (8 * IPv6len) = cidrMaskBytes 16 ones := by
    have : ¬ ones > 128 := by omega
    simp [CIDRMask, IPv4len, IPv6len, this]
  have hml : (cidrMaskBytes 16 ones).length = 16 := cidrMaskBytes_length 16 ones
  have hzl : (List.zipWith (fun b k => b &&& k) base (cidrMaskBytes 16 ones)).length = 16 := by
    simp [hb, hml]
  have hc : cidr6 base ones =
      { IP := List.zipWith (fun b k => b &&& k) base (cidrMaskBytes 16 ones),
        Mask := cidrMaskBytes 16 ones } := by
    simp only [cidr6, hm]
  rw [hc] at hn ⊢
  simp only at hn
  have hnm : networkNumberAndMask
      { IP := List.zipWith (fun b k => b &&& k) base (cidrMaskBytes 16 ones),
        Mask := cidrMaskBytes 16 ones } =
      (List.zipWith (fun b k => b &&& k) base (cidrMaskBytes 16 ones),
        cidrMaskBytes 16 ones) := by
    simp only [networkNumberAndMask, hn, hml, hzl, IPv4len, IPv6len, ne_eq, not_true_eq_false,
      if_false, if_true]
    simp
  unfold IPNet.Contains
  rw [hnm]
  cases h : ipTo4 ip with
  | some v4 =>
    have hl := (ipTo4_some ip v4 h).1
    simp [hl, hzl]
  | none =>
    simp only [hzl, ne_eq, true_and]
    by_cases h16 : ip.length = 16
    · simp only [h16, not_true_eq_false, if_false, maskedEqual_masked_base, true_and]
      rw [maskedEqual_cidr_iff 16 base ip ones hb h16 hbb hib (by omega)]
      simp [inPrefixRange, hb, h16]
    · simp [h16]

theorem parseIPv4Fields_chars (l : List Char) (fields : List Nat) (val digLen : Nat)
    (out : List Nat) (h : parseIPv4Fields l fields val digLen = some out) :
    (∀ c ∈ l, ('0'.toNat ≤ c.toNat ∧ c.toNat ≤ '9'.toNat) ∨ c = '.') ∧
      (fields.length < 3 → '.' ∈ l) := by
  induction l generalizing fields val digLen with
  | nil =>
    simp only [parseIPv4Fields] at h
    split at h
    · cases h
    · rename_i hlen
      exact ⟨fun c hc => absurd hc (List.not_mem_nil c), fun hlt => absurd hlt hlen⟩
  | cons c rest ih =>
    simp only [parseIPv4Fields] at h
    split at h
    next hd =>
      split at h
      · cases h
      · split at h
        · cases h
        · obtain ⟨h1, h2⟩ := ih _ _ _ h
          refine ⟨?_, fun hlt => List.mem_cons_of_mem _ (h2 hlt)⟩
          intro x hx
          rcases List.mem_cons.mp hx with rfl | hx
          · exact Or.inl hd
          · exact h1 x hx
    · split at h
      next hdot =>
        split at h
        · cases h
        · split at h
          · cases h
          · obtain ⟨h1, _⟩ := ih _ _ _ h
            refine ⟨?_, fun _ => by rw [hdot]; exact List.mem_cons_self _ _⟩
            intro x hx
            rcases List.mem_cons.mp hx with rfl | hx
            · exact Or.inr hdot
            · exact h1 x hx
      · cases h

theorem parseAddrScan_dotted (l : List Char) (whole : String)
    (hc : ∀ c ∈ l, ('0'.toNat ≤ c.toNat ∧ c.toNat ≤ '9'.toNat) ∨ c = '.')
    (hd : '.' ∈ l) : parseAddrScan l whole = parseIPv4 whole := by
  induction l with
  | nil => exact absurd hd (List.not_mem_nil _)
  | cons c rest ih =>
    simp only [parseAddrScan]
    by_cases hdot : c = '.'
    · rw [if_pos hdot]
    · rw [if_neg hdot]
      have hdig : '0'.toNat ≤ c.toNat ∧ c.toNat ≤ '9'.toNat := by
        rcases hc c (List.mem_cons_self _ _) with h | h
        · exact h
        · exact absurd h hdot
      have hcol : c ≠ ':' := by
        rintro rfl
        revert hdig
        decide
      have hpct : c ≠ '%' := by
        rintro rfl
        revert hdig
        decide
      rw [if_neg hcol, if_neg hpct]
      apply ih (fun x hx => hc x (List.mem_cons_of_mem _ hx))
      rcases List.mem_cons.mp hd with h | h
      · exact absurd h.symm hdot
      · exact h

theorem ParseIP_of_parseIPv4 (s : String) (ip : IP) (h : parseIPv4 s = some ip) :
    ParseIP s = some ip := by
  have h' := h
  unfold parseIPv4 at h'
  rw [Option.map_eq_some'] at h'
  obtain ⟨f, hf, _⟩ := h'
  obtain ⟨h1, h2⟩ := parseIPv4Fields_chars s.data [] 0 0 f hf
  unfold ParseIP
  rw [parseAddrScan_dotted s.data s h1 (h2 (by simp)), h]

theorem networkAllowed_ParseIP_cidr4_iff (base : IP) (ones : Nat) (addr : String)
    (hb : base.length = 4) (hbb : ∀ x ∈ base, x < 256) (ho : ones ≤ 32) :
    networkAllowed ParseIP (cidr4 base ones) addr = true ↔
      ∃ ip v4, ParseIP addr = some ip ∧ ipTo4 ip = some v4 ∧ inPrefixRange base ones v4 := by
  rw [networkAllowed_iff]
  constructor
  · rintro ⟨ip, hp, hc⟩
    obtain ⟨v4, hv, hr⟩ :=
      (cidr4_contains_any base ip ones hb hbb ho (ParseIP_bytes addr ip hp)).mp hc
    exact ⟨ip, v4, hp, hv, hr⟩
  · rintro ⟨ip, v4, hp, hv, hr⟩
    exact ⟨ip, hp,
      (cidr4_contains_any base ip ones hb hbb ho (ParseIP_bytes addr ip hp)).mpr ⟨v4, hv, hr⟩⟩

theorem networkAllowed_ParseIP_cidr6_iff (base : IP) (ones : Nat) (addr : String)
    (hb : base.length = 16) (hbb : ∀ x ∈ base, x < 256) (ho : ones ≤ 128)
    (hn : ipTo4 (cidr6 base ones).IP = none) :
    networkAllowed ParseIP (cidr6 base ones) addr = true ↔
      ∃ ip, ParseIP addr = some ip ∧ ipTo4 ip = none ∧ ip.length = 16 ∧
        inPrefixRange base ones ip := by
  rw [networkAllowed_iff]
  constructor
  · rintro ⟨ip, hp, hc⟩
    exact ⟨ip, hp,
      (cidr6_contains_any base ip ones hb hbb ho hn (ParseIP_bytes addr ip hp)).mp hc⟩
  · rintro ⟨ip, hp, hr⟩
    exact ⟨ip, hp,
      (cidr6_contains_any base ip ones hb hbb ho hn (ParseIP_bytes addr ip hp)).mpr hr⟩

/-- C3: the network gate returns true exactly when the remote address
parses to an IP address that the configured network contains, and it denies
when the address does not parse.  With `net.ParseIP` as the parser and a
network built as `net.ParseCIDR` builds it, containment is membership in
the CIDR range: for an IPv4 network `base/ones`, the address is an IPv4
address (in 4-byte or in IPv4-mapped 16-byte form) that agrees with `base`
on the leading `ones` bits; for an IPv6 network, it is an IPv6 address that
does so.  With `10.0.0.0/24`: `10.0.0.5` and its mapped form
`::ffff:10.0.0.5` are permitted, `192.168.1.5`, `::1`, `2001:db8::1` and
text that is no address are denied. -/
theorem network_gate_permits_iff_in_cidr :
    (∀ (parseIP : String → Option IP) (allowedNetwork : IPNet) (a : String),
      networkAllowed parseIP allowedNetwork a = true ↔
        ∃ ip, parseIP a = some ip ∧ allowedNetwork.Contains ip = true) ∧
    (∀ (parseIP : String → Option IP) (allowedNetwork : IPNet) (a : String),
      parseIP a = none → networkAllowed parseIP allowedNetwork a = false) ∧
    (∀ (base : IP) (ones : Nat) (addr : String),
      base.length = 4 → (∀ x ∈ base, x < 256) → ones ≤ 32 →
      (networkAllowed ParseIP (cidr4 base ones) addr = true ↔
        ∃ ip v4, ParseIP addr = some ip ∧ ipTo4 ip = some v4 ∧
          inPrefixRange base ones v4)) ∧
    (∀ (base : IP) (ones : Nat) (addr : String),
      base.length = 16 → (∀ x ∈ base, x < 256) → ones ≤ 128 →
      ipTo4 (cidr6 base ones).IP = none →
      (networkAllowed ParseIP (cidr6 base ones) addr = true ↔
        ∃ ip, ParseIP addr = some ip ∧ ipTo4 ip = none ∧ ip.length = 16 ∧
          inPrefixRange base ones ip)) ∧
    (∀ (base ip : IP) (ones : Nat),
      base.length = 4 → (∀ x ∈ base, x < 256) → ones ≤ 32 → (∀ x ∈ ip, x < 256) →
      ((cidr4 base ones).Contains ip = true ↔
        ∃ v4, ipTo4 ip = some v4 ∧ inPrefixRange base ones v4)) ∧
    cidr4 [10, 0, 0, 0] 24 = { IP := [10, 0, 0, 0], Mask := [255, 255, 255, 0] } ∧
    networkAllowed ParseIP (cidr4 [10, 0, 0, 0] 24) "10.0.0.5" = true ∧
    networkAllowed ParseIP (cidr4 [10, 0, 0, 0] 24) "192.168.1.5" = false ∧
    networkAllowed ParseIP (cidr4 [10, 0, 0, 0] 24) "::ffff:10.0.0.5" = true ∧
    networkAllowed ParseIP (cidr4 [10, 0, 0, 0] 24) "::1" = false ∧
    networkAllowed ParseIP (cidr4 [10, 0, 0, 0] 24) "2001:db8::1" = false ∧
    networkAllowed ParseIP (cidr4 [10, 0, 0, 0] 24) "not-an-address" = false ∧
    networkAllowed ParseIP
      (cidr6 [0x20, 0x01, 0x0d, 0xb8, 0, 0, 0, 0, 0, 0, 0, 0, 0, 0, 0, 0] 32)
      "2001:db8::1" = true ∧
    networkAllowed ParseIP
      (cidr6 [0x20, 0x01, 0x0d, 0xb8, 0, 0, 0, 0, 0, 0, 0, 0, 0, 0, 0, 0] 32)
      "10.0.0.5" = false := by
  refine ⟨networkAllowed_iff, ?_, networkAllowed_ParseIP_cidr4_iff,
    networkAllowed_ParseIP_cidr6_iff, ?_, ?_, ?_, ?_, ?_, ?_, ?_, ?_, ?_, ?_⟩
  · intro parseIP allowedNetwork a h
    simp [networkAllowed, h]
  · intro base ip ones hb hbb ho hib
    exact cidr4_contains_any base ip ones hb hbb ho hib
  all_goals decide

/-- Instance of the C3 characterisation at the network `10.0.0.0/24` and the
address `10.0.0.77`. -/
theorem network_gate_permits_iff_in_cidr_witness :
    networkAllowed ParseIP (cidr4 [10, 0, 0, 0] 24) "10.0.0.77" = true ↔
      ∃ ip v4, ParseIP "10.0.0.77" = some ip ∧ ipTo4 ip = some v4 ∧
        inPrefixRange [10, 0, 0, 0] 24 v4 :=
  network_gate_permits_iff_in_cidr.2.2.1 [10, 0, 0, 0] 24 "10.0.0.77" (by decide) (by decide)
    (by decide)

theorem handleHttpRequest_forward_iff (parseIP : String → Option IP) (allowedNetwork : IPNet)
    (fragments : List String) (r : Request) :
    handleHttpRequest parseIP allowedNetwork fragments r = .forward r ↔
      (networkAllowed parseIP allowedNetwork r.RemoteAddr = true ∧
        pathAllowed fragments r.Path = true) := by
  unfold handleHttpRequest
  by_cases h : (networkAllowed parseIP allowedNetwork r.RemoteAddr &&
      pathAllowed fragments r.Path) = true
  · simp only [h, if_true, true_iff]
    simpa using h
  · simp only [h, if_false]
    simp only [Bool.and_eq_true] at h
    simp [h]

theorem handleHttpRequest_deny (parseIP : String → Option IP) (allowedNetwork : IPNet)
    (fragments : List String) (r : Request)
    (h : ¬ (networkAllowed parseIP allowedNetwork r.RemoteAddr = true ∧
        pathAllowed fragments r.Path = true)) :
    handleHttpRequest parseIP allowedNetwork fragments r = .deny StatusForbidden := by
  rw [← Bool.and_eq_true] at h
  simp only [handleHttpRequest]
  rw [if_neg h]

/-- C1: the handler hands a request to the socket proxy exactly when the
network gate permits its remote address and the path gate permits its path;
when either gate fails the answer is status 403 and nothing is handed to the
proxy.  The four combinations of the two gates are shown on requests from
`10.0.0.5` and `192.168.1.5` to `/v1/events` and `/v1.41/info` with the
network `10.0.0.0/24`. -/
theorem dispatcher_forwards_iff_both_gates_permit :
    (∀ (parseIP : String → Option IP) (allowedNetwork : IPNet) (fragments : List String)
        (r : Request),
      ((handleHttpRequest parseIP allowedNetwork fragments r).toBackend = [r] ↔
        (networkAllowed parseIP allowedNetwork r.RemoteAddr = true ∧
          pathAllowed fragments r.Path = true)) ∧
      (¬ (networkAllowed parseIP allowedNetwork r.RemoteAddr = true ∧
            pathAllowed fragments r.Path = true) →
        handleHttpRequest parseIP allowedNetwork fragments r = .deny 403 ∧
        (handleHttpRequest parseIP allowedNetwork fragments r).toBackend = [])) ∧
    (∀ (method : String) (header : List (String × String)) (body : List Nat),
      handleHttpRequest parseIPv4 (cidr4 [10, 0, 0, 0] 24) allowedPaths
          ⟨method, "/v1/events", "10.0.0.5", header, body⟩ =
        .forward ⟨method, "/v1/events", "10.0.0.5", header, body⟩ ∧
      handleHttpRequest parseIPv4 (cidr4 [10, 0, 0, 0] 24) allowedPaths
          ⟨method, "/v1/events", "192.168.1.5", header, body⟩ = .deny 403 ∧
      handleHttpRequest parseIPv4 (cidr4 [10, 0, 0, 0] 24) allowedPaths
          ⟨method, "/v1.41/info", "10.0.0.5", header, body⟩ = .deny 403 ∧
      handleHttpRequest parseIPv4 (cidr4 [10, 0, 0, 0] 24) allowedPaths
          ⟨method, "/v1.41/info", "192.168.1.5", header, body⟩ = .deny 403) := by
  refine ⟨fun parseIP allowedNetwork fragments r => ⟨?_, ?_⟩, fun method header body => ?_⟩
  · rw [← handleHttpRequest_forward_iff]
    cases h : handleHttpRequest parseIP allowedNetwork fragments r with
    | forward r' => simp [Dispatch.toBackend]
    | deny s => simp [Dispatch.toBackend]
  · intro h
    have hd := handleHttpRequest_deny parseIP allowedNetwork fragments r h
    rw [hd]
    exact ⟨rfl, rfl⟩
  · have n1 : networkAllowed parseIPv4 (cidr4 [10, 0, 0, 0] 24) "10.0.0.5" = true := by decide
    have n2 : networkAllowed parseIPv4 (cidr4 [10, 0, 0, 0] 24) "192.168.1.5" = false := by
      decide
    have p1 : pathAllowed allowedPaths "/v1/events" = true := by decide
    have p2 : pathAllowed allowedPaths "/v1.41/info" = false := by decide
    refine ⟨?_, ?_, ?_, ?_⟩
    · exact (handleHttpRequest_forward_iff _ _ _ _).mpr ⟨n1, p1⟩
    · exact handleHttpRequest_deny _ _ _ _ (fun h => by simp [n2] at h)
    · exact handleHttpRequest_deny _ _ _ _ (fun h => by simp [p2] at h)
    · exact handleHttpRequest_deny _ _ _ _ (fun h => by simp [n2] at h)

/-- C8: the transport of `socketProxy` opens, for every context, network and
address it is given, the connection `net.Dial("unix", socketPath)`; the
result is the same for any two calls, and the proxy's nominal target is the
fixed URL `http://localhost`. -/
theorem dial_target_is_socket_path :
    (∀ socketPath : String, ∃ t : Transport,
      (socketProxy socketPath).Transport = some t ∧
      ∀ (netDial : Dialer) (ctx : Context) (network addr : String),
        t.DialContext netDial ctx network addr = netDial "unix" socketPath) ∧
    (∀ (socketPath : String) (netDial : Dialer) (ctx₁ ctx₂ : Context)
        (network₁ addr₁ network₂ addr₂ : String),
      dialContext socketPath netDial ctx₁ network₁ addr₁ =
        dialContext socketPath netDial ctx₂ network₂ addr₂) ∧
    (∀ socketPath : String, (socketProxy socketPath).target = socketUrlDummy) ∧
    socketUrlDummy.String = "http://localhost" :=
  ⟨fun socketPath => ⟨{ DialContext := dialContext socketPath }, rfl, fun _ _ _ _ => rfl⟩,
    fun _ _ _ _ _ _ _ _ => rfl, fun _ => rfl, by decide⟩

theorem socketProxy_roundTrip_error (socketPath : String) (netDial : Dialer) (ctx : Context)
    (req : Request) (err : GoError) (h : netDial "unix" socketPath = .error err) :
    (socketProxy socketPath).roundTrip netDial ctx req = .error err := by
  simp only [ReverseProxy.roundTrip, socketProxy, NewSingleHostReverseProxy, dialContext, h]

/-- C9: `socketProxy` has no custom error handler, and when dialing the
socket fails its `ServeHTTP` answers with status 502 (bad gateway, in the
server-error range) and an empty body. -/
theorem unreachable_backend_gives_bad_gateway :
    (∀ socketPath : String, (socketProxy socketPath).ErrorHandler.isNone = true) ∧
    (∀ (socketPath : String) (netDial : Dialer) (ctx : Context) (req : Request)
        (err : GoError),
      netDial "unix" socketPath = .error err →
        (socketProxy socketPath).ServeHTTP netDial ctx req =
          { status := StatusBadGateway, body := [] }) ∧
    StatusBadGateway = 502 ∧ 500 ≤ StatusBadGateway ∧ StatusBadGateway < 600 := by
  refine ⟨fun _ => rfl, ?_, rfl, by decide, by decide⟩
  intro socketPath netDial ctx req err h
  unfold ReverseProxy.ServeHTTP
  rw [socketProxy_roundTrip_error socketPath netDial ctx req err h]
  rfl

/-- Instance of C9: a `GET /v1.41/containers/json` while the socket file is
missing is answered with 502. -/
theorem unreachable_backend_gives_bad_gateway_witness :
    ((socketProxy "/var/run/docker.sock").ServeHTTP
        (fun _ _ => .error (.leaf "connect: no such file or directory"))
        { deadline := none }
        { Method := "GET", Path := "/v1.41/containers/json", RemoteAddr := "10.0.0.5",
          Header := [], Body := [] }).status = 502 :=
  congrArg Response.status
    (unreachable_backend_gives_bad_gateway.2.1 "/var/run/docker.sock"
      (fun _ _ => .error (.leaf "connect: no such file or directory")) { deadline := none }
      { Method := "GET", Path := "/v1.41/containers/json", RemoteAddr := "10.0.0.5",
        Header := [], Body := [] }
      (.leaf "connect: no such file or directory") rfl)

theorem serverGoroutine_eq_some (err : Option GoError) (pt : ExitPoint) :
    serverGoroutine err = some pt ↔
      (pt = .listenerFailed ∧ err ≠ none ∧ errorsIs err (some .ErrServerClosed) = false) := by
  unfold serverGoroutine
  by_cases h : err ≠ none ∧ errorsIs err (some .ErrServerClosed) = false
  · rw [if_pos h]
    constructor
    · intro e
      exact ⟨(Option.some.inj e).symm, h⟩
    · rintro ⟨rfl, _⟩
      rfl
  · rw [if_neg h]
    constructor
    · intro e
      cases e
    · rintro ⟨_, h'⟩
      exact absurd h' h

theorem step_exit (m : Nat) (p q : Proc) (e : Event) (pt : ExitPoint)
    (hs : step m p e = some q) (hq : q.exit = some pt) :
    p.exit = none ∧
    ((p.main = .inShutdown ∧ ∃ err, e = .shutdownReturned err ∧ pt = afterShutdown err) ∨
      (∃ err, e = .listenAndServeReturned (some err) ∧
        errorsIs (some err) (some .ErrServerClosed) = false ∧ pt = .listenerFailed) ∨
      (∃ s, e = .signal s ∧ s ∉ notifiedSignals ∧ pt = .killed s)) := by
  cases e with
  | listenerBound =>
    simp only [step] at hs
    split at hs
    · cases hs; simp_all
    · cases hs
  | requestAccepted =>
    simp only [step] at hs
    split at hs
    · cases hs; simp_all
    · cases hs
  | listenAndServeReturned err =>
    simp only [step] at hs
    split at hs
    next h =>
      cases hs
      simp only at hq
      obtain ⟨rfl, hne, his⟩ := (serverGoroutine_eq_some err pt).mp hq
      refine ⟨h.1, Or.inr (Or.inl ?_)⟩
      cases err with
      | none => exact absurd rfl hne
      | some e0 => exact ⟨e0, rfl, his, rfl⟩
    · cases hs
  | signal s =>
    simp only [step] at hs
    split at hs
    · split at hs
      · cases hs; simp_all
      · cases hs; simp_all
    next hn =>
      split at hs
      next he =>
        cases hs
        simp only [Option.some.injEq] at hq
        refine ⟨he, Or.inr (Or.inr ⟨s, rfl, ?_, hq.symm⟩)⟩
        intro hmem
        exact hn ⟨he, hmem⟩
      · cases hs
  | shutdownReturned err =>
    simp only [step] at hs
    split at hs
    next h =>
      cases hs
      simp only [Option.some.injEq] at hq
      exact ⟨h.1, Or.inl ⟨h.2, err, rfl, hq.symm⟩⟩
    · cases hs

theorem afterShutdown_none : afterShutdown none = .mainReturned := rfl

theorem afterShutdown_some (e : GoError) : afterShutdown (some e) = .shutdownTimedOut := rfl

theorem exitPoint_code_injective : Function.Injective ExitPoint.code := by
  intro a b h
  cases a with
  | killed s =>
    cases b with
    | killed t => cases s <;> cases t <;> first | rfl | exact absurd h (by decide)
    | mainReturned => cases s <;> exact absurd h (by decide)
    | listenerFailed => cases s <;> exact absurd h (by decide)
    | shutdownTimedOut => cases s <;> exact absurd h (by decide)
  | mainReturned =>
    cases b with
    | killed t => cases t <;> exact absurd h (by decide)
    | mainReturned => rfl
    | listenerFailed => exact absurd h (by decide)
    | shutdownTimedOut => exact absurd h (by decide)
  | listenerFailed =>
    cases b with
    | killed t => cases t <;> exact absurd h (by decide)
    | mainReturned => exact absurd h (by decide)
    | listenerFailed => rfl
    | shutdownTimedOut => exact absurd h (by decide)
  | shutdownTimedOut =>
    cases b with
    | killed t => cases t <;> exact absurd h (by decide)
    | mainReturned => exact absurd h (by decide)
    | listenerFailed => exact absurd h (by decide)
    | shutdownTimedOut => rfl

theorem serverGoroutine_of_failure (err : GoError)
    (h : errorsIs (some err) (some .ErrServerClosed) = false) :
    serverGoroutine (some err) = some .listenerFailed :=
  (serverGoroutine_eq_some _ _).mpr ⟨rfl, by simp, h⟩

theorem step_listener_failure (m : Nat) (p : Proc) (err : GoError)
    (he : p.exit = none) (hs : p.server ≠ .finished)
    (ht : ¬ (p.server = .serving ∧ err.Temporary = true))
    (h : errorsIs (some err) (some .ErrServerClosed) = false) :
    step m p (.listenAndServeReturned (some err)) =
      some { p with server := .finished, exit := some .listenerFailed } := by
  have hg := serverGoroutine_of_failure err h
  have ht' : ¬ (p.server = .serving ∧ acceptRetried (some err) = true) := ht
  simp only [step, hg]
  rw [if_pos ⟨he, hs, ht'⟩]

/-- C4: the three outcomes of the process of `main` have the exit codes 0, 2
and 3, and no two exit points share a code.  A clean exit: when
`srv.Shutdown` returns nil, `main` returns and the code is 0.  A listener
failure: when `srv.ListenAndServe` returns an error other than
`http.ErrServerClosed`, the server goroutine exits and the code is 2.  A
forced shutdown: when `srv.Shutdown` returns an error, the code is 3.
Conversely a step that ends the process ends it in one of these three ways,
or the process is ended by a signal it has not registered for.  The three
outcomes are run from the initial state. -/
theorem exit_codes_pairwise_distinct :
    ExitPoint.mainReturned.code = 0 ∧ ExitPoint.listenerFailed.code = 2 ∧
    ExitPoint.shutdownTimedOut.code = 3 ∧
    Function.Injective ExitPoint.code ∧
    (∀ (m : Nat) (p : Proc), p.exit = none → p.main = .inShutdown →
      ∃ q, step m p (.shutdownReturned none) = some q ∧
        q.exit = some .mainReturned ∧ q.exit.map ExitPoint.code = some 0) ∧
    (∀ err : GoError, errorsIs (some err) (some .ErrServerClosed) = false →
      serverGoroutine (some err) = some .listenerFailed) ∧
    (∀ (m : Nat) (p : Proc) (err : GoError), p.exit = none → p.server ≠ .finished →
      ¬ (p.server = .serving ∧ err.Temporary = true) →
      errorsIs (some err) (some .ErrServerClosed) = false →
      ∃ q, step m p (.listenAndServeReturned (some err)) = some q ∧
        q.exit = some .listenerFailed ∧ q.exit.map ExitPoint.code = some 2) ∧
    (∀ (m : Nat) (p : Proc) (err : GoError), p.exit = none → p.main = .inShutdown →
      ∃ q, step m p (.shutdownReturned (some err)) = some q ∧
        q.exit = some .shutdownTimedOut ∧ q.exit.map ExitPoint.code = some 3) ∧
    (∀ (m : Nat) (p q : Proc) (e : Event) (pt : ExitPoint),
      step m p e = some q → q.exit = some pt →
        (pt = .mainReturned ∧ e = .shutdownReturned none) ∨
        (pt = .shutdownTimedOut ∧ ∃ err, e = .shutdownReturned (some err)) ∨
        (pt = .listenerFailed ∧ ∃ err, e = .listenAndServeReturned (some err) ∧
          errorsIs (some err) (some .ErrServerClosed) = false) ∨
        (∃ s, pt = .killed s ∧ e = .signal s ∧ s ∉ notifiedSignals)) ∧
    ((run 10 Proc.init [.listenerBound, .requestAccepted, .signal .SIGTERM,
        .listenAndServeReturned (some .ErrServerClosed), .shutdownReturned none]).bind
      (fun q => q.exit.map ExitPoint.code) = some 0) ∧
    ((run 10 Proc.init [.listenAndServeReturned
        (some (.wrap "listen tcp :2375" (.leaf "bind: address already in use")))]).bind
      (fun q => q.exit.map ExitPoint.code) = some 2) ∧
    ((run 10 Proc.init [.listenerBound, .requestAccepted, .signal .SIGINT,
        .shutdownReturned (some .DeadlineExceeded)]).bind
      (fun q => q.exit.map ExitPoint.code) = some 3) := by
  refine ⟨rfl, rfl, rfl, exitPoint_code_injective, ?_, serverGoroutine_of_failure, ?_, ?_, ?_,
    by decide, by decide, by decide⟩
  · intro m p he hm
    refine ⟨{ p with exit := some (afterShutdown none) }, ?_, rfl, rfl⟩
    simp [step, he, hm]
  · intro m p err he hs ht h
    exact ⟨_, step_listener_failure m p err he hs ht h, rfl, rfl⟩
  · intro m p err he hm
    refine ⟨{ p with exit := some (afterShutdown (some err)) }, ?_, rfl, rfl⟩
    simp [step, he, hm]
  · intro m p q e pt hs hq
    obtain ⟨_, h | h | h⟩ := step_exit m p q e pt hs hq
    · obtain ⟨_, err, rfl, rfl⟩ := h
      cases err with
      | none => exact Or.inl ⟨rfl, rfl⟩
      | some e0 => exact Or.inr (Or.inl ⟨rfl, e0, rfl⟩)
    · obtain ⟨err, rfl, his, rfl⟩ := h
      exact Or.inr (Or.inr (Or.inl ⟨rfl, err, rfl, his⟩))
    · obtain ⟨sg, rfl, hn, rfl⟩ := h
      exact Or.inr (Or.inr (Or.inr ⟨sg, rfl, rfl, hn⟩))

theorem errorsIs_leafLike (e : GoError) (h : ∀ msg inner, e ≠ .wrap msg inner) :
    errorsIs (some e) (some .ErrServerClosed) = false ↔ e ≠ .ErrServerClosed := by
  cases e with
  | wrap msg inner => exact absurd rfl (h msg inner)
  | ErrServerClosed => simp [errorsIs, GoError.chainHas]
  | DeadlineExceeded => simp [errorsIs, GoError.chainHas]
  | leaf msg => simp [errorsIs, GoError.chainHas]
  | temporary msg => simp [errorsIs, GoError.chainHas]

/-- C5: the server goroutine ends the process with exit code 2 exactly when
the result of `srv.ListenAndServe` is non-nil and `errors.Is` does not find
`http.ErrServerClosed` in it (for an error that wraps nothing: when it is
not `http.ErrServerClosed`); it never ends the process in another way.  A
failing bind from the initial state exits with code 2 with no request
accepted, no request can be accepted while the listener is not bound, and
the results `http.ErrServerClosed` and nil leave the process running. -/
theorem listener_failure_exit_iff :
    (∀ err : Option GoError,
      (serverGoroutine err).map ExitPoint.code = some 2 ↔
        (err ≠ none ∧ errorsIs err (some .ErrServerClosed) = false)) ∧
    (∀ err : Option GoError,
      serverGoroutine err = none ∨ serverGoroutine err = some .listenerFailed) ∧
    (∀ e : GoError, (∀ msg inner, e ≠ .wrap msg inner) →
      (errorsIs (some e) (some .ErrServerClosed) = false ↔ e ≠ .ErrServerClosed)) ∧
    (∀ (m : Nat) (e : GoError), errorsIs (some e) (some .ErrServerClosed) = false →
      step m Proc.init (.listenAndServeReturned (some e)) =
        some { Proc.init with server := .finished, exit := some .listenerFailed }) ∧
    Proc.init.accepted = 0 ∧
    (∀ (m : Nat) (p : Proc), p.server = .binding → step m p .requestAccepted = none) ∧
    serverGoroutine (some .ErrServerClosed) = none ∧
    serverGoroutine none = none ∧
    (∀ (m : Nat) (p q : Proc),
      step m p (.listenAndServeReturned (some .ErrServerClosed)) = some q → q.exit = none) := by
  refine ⟨?_, ?_, errorsIs_leafLike, ?_, rfl, ?_, by decide, by decide, ?_⟩
  · intro err
    unfold serverGoroutine
    by_cases h : err ≠ none ∧ errorsIs err (some .ErrServerClosed) = false
    · rw [if_pos h]
      simp only [Option.map_some', ExitPoint.code, true_iff]
      exact h
    · rw [if_neg h]
      constructor
      · intro h'
        cases h'
      · intro h'
        exact absurd h' h
  · intro err
    unfold serverGoroutine
    split
    · exact Or.inr rfl
    · exact Or.inl rfl
  · intro m e h
    have hg : serverGoroutine (some e) = some .listenerFailed :=
      (serverGoroutine_eq_some _ _).mpr ⟨rfl, by simp, h⟩
    simp [step, Proc.init, hg]
  · intro m p h
    simp [step, h]
  · intro m p q hs
    simp only [step] at hs
    split at hs
    next h =>
      cases hs
      have : serverGoroutine (some GoError.ErrServerClosed) = none := by decide
      simp only [this]
    · cases hs

/-- Instance of C5: the listener cannot bind because the address is in use. -/
theorem listener_failure_exit_iff_witness :
    step 10 Proc.init (.listenAndServeReturned
        (some (.wrap "listen tcp :2375" (.wrap "bind" (.leaf "address already in use"))))) =
      some { server := .finished, main := .waitingSignal, accepted := 0,
             shutdownTimeout := none, exit := some .listenerFailed } :=
  listener_failure_exit_iff.2.2.2.1 10
    (.wrap "listen tcp :2375" (.wrap "bind" (.leaf "address already in use"))) (by decide)

/-- C6: on `SIGINT` or `SIGTERM`, the registered signals, `main` enters
`srv.Shutdown` with a timeout of `maxGracefulShutdownTime` seconds, and
`srv.Shutdown` does not return before that.  When it returns, the exit
point depends on its result alone: nil makes `main` return (exit code 0),
an error exits with code 3. -/
theorem shutdown_result_decides_exit :
    notifiedSignals = [.SIGINT, .SIGTERM] ∧
    (∀ (m : Nat) (p : Proc) (s : Signal),
      p.exit = none → p.main = .waitingSignal → s ∈ notifiedSignals →
        step m p (.signal s) =
          some { p with main := .inShutdown, shutdownTimeout := some (m * 1000000000) }) ∧
    (∀ (m : Nat) (p : Proc) (err : Option GoError),
      p.main = .waitingSignal → step m p (.shutdownReturned err) = none) ∧
    (∀ (m : Nat) (p : Proc) (err : Option GoError),
      p.exit = none → p.main = .inShutdown →
        step m p (.shutdownReturned err) = some { p with exit := some (afterShutdown err) }) ∧
    afterShutdown none = .mainReturned ∧ ExitPoint.mainReturned.code = 0 ∧
    (∀ e : GoError, afterShutdown (some e) = .shutdownTimedOut) ∧
    ExitPoint.shutdownTimedOut.code = 3 := by
  refine ⟨rfl, ?_, ?_, ?_, rfl, rfl, fun _ => rfl, rfl⟩
  · intro m p s he hm hs
    simp [step, he, hm, hs, timeSecond]
  · intro m p err hm
    simp [step, hm]
  · intro m p err he hm
    simp [step, he, hm]

/-- Instance of C6: the shutdown deadline passes with requests in flight. -/
theorem shutdown_result_decides_exit_witness :
    step 10 { server := .serving, main := .inShutdown, accepted := 3,
              shutdownTimeout := some 10000000000, exit := none }
        (.shutdownReturned (some .DeadlineExceeded)) =
      some { server := .serving, main := .inShutdown, accepted := 3,
             shutdownTimeout := some 10000000000, exit := some .shutdownTimedOut } :=
  shutdown_result_decides_exit.2.2.2.1 10
    { server := .serving, main := .inShutdown, accepted := 3,
      shutdownTimeout := some 10000000000, exit := none }
    (some .DeadlineExceeded) rfl rfl

theorem phase_stopped_iff (p : Proc) : p.phase = .Stopped ↔ p.exit ≠ none := by
  obtain ⟨sv, mn, acc, tmo, ex⟩ := p
  cases ex <;> cases mn <;> cases sv <;> simp [Proc.phase]

theorem phase_shuttingDown_iff (p : Proc) :
    p.phase = .ShuttingDown ↔ (p.exit = none ∧ p.main = .inShutdown) := by
  obtain ⟨sv, mn, acc, tmo, ex⟩ := p
  cases ex <;> cases mn <;> cases sv <;> simp [Proc.phase]

/-- C7, as stated, fails: the initial state is in phase `Starting`, and
when the listener cannot be bound the process stops there with exit code 2,
without passing through `ShuttingDown`. -/
theorem stopped_reached_without_shutting_down :
    Proc.init.phase = .Starting ∧
    step 10 Proc.init (.listenAndServeReturned
        (some (.wrap "listen tcp :2375" (.leaf "bind: address already in use")))) =
      some { server := .finished, main := .waitingSignal, accepted := 0,
             shutdownTimeout := none, exit := some .listenerFailed } ∧
    Proc.phase { server := .finished, main := .waitingSignal, accepted := 0,
                 shutdownTimeout := none, exit := some .listenerFailed } = .Stopped ∧
    ExitPoint.listenerFailed.code = 2 ∧
    ¬ (∀ (m : Nat) (p q : Proc) (e : Event),
        step m p e = some q → q.phase = .Stopped → p.phase = .ShuttingDown) := by
  refine ⟨by decide, by decide, by decide, rfl, ?_⟩
  intro h
  have h1 := h 10 Proc.init { Proc.init with server := .finished, exit := some .listenerFailed }
    (.listenAndServeReturned (some (.leaf "bind"))) (by decide) (by decide)
  revert h1
  decide

/-- C7, amended: a transition into `Stopped` is taken from `ShuttingDown`
when `srv.Shutdown` returns (exit code 0 on nil, 3 on an error), or when
`srv.ListenAndServe` returns an error other than `http.ErrServerClosed`
(exit code 2), or when the process is sent a signal it has not registered
for; and `ShuttingDown` is entered only on a registered termination
signal. -/
theorem stopped_only_after_shutdown_or_listener_failure :
    (∀ (m : Nat) (p q : Proc) (e : Event),
      step m p e = some q → q.phase = .Stopped →
        (p.phase = .ShuttingDown ∧
          ((e = .shutdownReturned none ∧ q.exit.map ExitPoint.code = some 0) ∨
           (∃ err, e = .shutdownReturned (some err) ∧ q.exit.map ExitPoint.code = some 3))) ∨
        (∃ err, e = .listenAndServeReturned (some err) ∧
          errorsIs (some err) (some .ErrServerClosed) = false ∧
          q.exit.map ExitPoint.code = some 2) ∨
        (∃ s, e = .signal s ∧ s ∉ notifiedSignals ∧ q.exit = some (.killed s))) ∧
    (∀ (m : Nat) (p q : Proc) (e : Event),
      step m p e = some q → q.phase = .ShuttingDown → p.phase ≠ .ShuttingDown →
        ∃ s, e = .signal s ∧ s ∈ notifiedSignals) ∧
    notifiedSignals = [.SIGINT, .SIGTERM] := by
  refine ⟨?_, ?_, rfl⟩
  · intro m p q e hs hq
    rw [phase_stopped_iff] at hq
    obtain ⟨pt, hpt⟩ := Option.ne_none_iff_exists'.mp hq
    obtain ⟨hp, h | h | h⟩ := step_exit m p q e pt hs hpt
    · obtain ⟨hm, err, rfl, rfl⟩ := h
      refine Or.inl ⟨(phase_shuttingDown_iff p).mpr ⟨hp, hm⟩, ?_⟩
      cases err with
      | none => exact Or.inl ⟨rfl, by rw [hpt]; rfl⟩
      | some e0 => exact Or.inr ⟨e0, rfl, by rw [hpt]; rfl⟩
    · obtain ⟨err, rfl, his, rfl⟩ := h
      exact Or.inr (Or.inl ⟨err, rfl, his, by rw [hpt]; rfl⟩)
    · obtain ⟨sg, rfl, hn, rfl⟩ := h
      exact Or.inr (Or.inr ⟨sg, rfl, hn, hpt⟩)
  · intro m p q e hs hq hp
    rw [phase_shuttingDown_iff] at hq
    have hp : ¬ (p.exit = none ∧ p.main = .inShutdown) :=
      fun h => hp ((phase_shuttingDown_iff p).mpr h)
    cases e with
    | listenerBound =>
      simp only [step] at hs
      split at hs
      next h => cases hs; exact absurd ⟨h.1, hq.2⟩ hp
      · cases hs
    | requestAccepted =>
      simp only [step] at hs
      split at hs
      next h => cases hs; exact absurd ⟨h.1, hq.2⟩ hp
      · cases hs
    | listenAndServeReturned err =>
      simp only [step] at hs
      split at hs
      next h => cases hs; exact absurd ⟨h.1, hq.2⟩ hp
      · cases hs
    | signal s =>
      simp only [step] at hs
      split at hs
      next h => exact ⟨s, rfl, h.2⟩
      · split at hs
        · cases hs
          exact absurd hq.1 (by simp)
        · cases hs
    | shutdownReturned err =>
      simp only [step] at hs
      split at hs
      next h => cases hs; exact absurd h hp
      · cases hs

/-- Instance of the amended C7: the step that enters `ShuttingDown` from
`Running` is the signal `SIGTERM`. -/
theorem stopped_only_after_shutdown_or_listener_failure_witness :
    ∃ s, Event.signal .SIGTERM = .signal s ∧ s ∈ notifiedSignals :=
  stopped_only_after_shutdown_or_listener_failure.2.1 10
    { server := .serving, main := .waitingSignal, accepted := 2,
      shutdownTimeout := none, exit := none }
    { server := .serving, main := .inShutdown, accepted := 2,
      shutdownTimeout := some 10000000000, exit := none }
    (.signal .SIGTERM) (by decide) (by decide) (by decide)

/-- Instance of C1: a request from outside the network to a permitted path
is answered with 403 and not handed to the proxy. -/
theorem dispatcher_forwards_iff_both_gates_permit_witness :
    handleHttpRequest parseIPv4 (cidr4 [10, 0, 0, 0] 24) allowedPaths
        { Method := "GET", Path := "/v1.41/containers/json", RemoteAddr := "192.168.1.5",
          Header := [], Body := [] } = .deny 403 ∧
    (handleHttpRequest parseIPv4 (cidr4 [10, 0, 0, 0] 24) allowedPaths
        { Method := "GET", Path := "/v1.41/containers/json", RemoteAddr := "192.168.1.5",
          Header := [], Body := [] }).toBackend = [] :=
  (dispatcher_forwards_iff_both_gates_permit.1 parseIPv4 (cidr4 [10, 0, 0, 0] 24) allowedPaths
    { Method := "GET", Path := "/v1.41/containers/json", RemoteAddr := "192.168.1.5",
      Header := [], Body := [] }).2 (by decide)

/-- Instance of C10: a path addressing another endpoint is permitted once it
ends in a fragment. -/
theorem path_gate_closed_under_extension_witness :
    pathAllowed allowedPaths ("/v1.41/images/" ++ "version" ++ "") = true :=
  path_gate_closed_under_extension.1 "/v1.41/images/" "" "version" (by decide)

/-- Instance of C4: the listener cannot be bound because the port is
privileged, and the process exits with code 2. -/
theorem exit_codes_pairwise_distinct_witness :
    ∃ q, step 10 Proc.init (.listenAndServeReturned
          (some (.wrap "listen tcp :80" (.leaf "bind: permission denied")))) = some q ∧
      q.exit = some .listenerFailed ∧ q.exit.map ExitPoint.code = some 2 :=
  exit_codes_pairwise_distinct.2.2.2.2.2.2.1 10 Proc.init
    (.wrap "listen tcp :80" (.leaf "bind: permission denied")) rfl (by decide) (by decide)
    (by decide)

end SocketProxy
